import Mathlib

set_option linter.unusedVariables false

/-!
Verification of the Crystal Clear audio compressor (`src/utils/compressor.py`)
against its natural-language specification.

Strings are modelled as `List Char` (a faithful rendering of Python `str` as a
sequence of characters).  Python's `str.replace(old, new)` replaces every
non-overlapping occurrence of `old`, scanning left to right; the three
occurrence-replacement functions below specialise that semantics to the three
concrete patterns the source uses (`'.mp3' -> ''`, `'.m4a' -> ''`,
`'.m4a' -> '.mp3'`), written structurally so that they compute by `decide`.
-/

/-- `[A-Za-z]` of the regexes in `extract_base_name` (ASCII letters). -/
def isAsciiAlpha (c : Char) : Bool :=
  decide ((65 ≤ c.toNat ∧ c.toNat ≤ 90) ∨ (97 ≤ c.toNat ∧ c.toNat ≤ 122))

/-- The digits `0-9` matched by `\d` in the source's regexes (the filenames at
hand are ASCII). -/
def isAsciiDigit (c : Char) : Bool := decide (48 ≤ c.toNat ∧ c.toNat ≤ 57)

/-- `re.sub(r'\d+$', '', s)`: remove a trailing run of digits. -/
def stripTrailingDigits (s : List Char) : List Char :=
  (s.reverse.dropWhile isAsciiDigit).reverse

/-- Python `s.replace('.mp3', '')`: delete every occurrence of `.mp3`,
scanning left to right, non-overlapping. -/
def removeDotMp3 : List Char → List Char
  | [] => []
  | [c] => [c]
  | [c1, c2] => [c1, c2]
  | [c1, c2, c3] => [c1, c2, c3]
  | c1 :: c2 :: c3 :: c4 :: rest =>
    if c1 = '.' ∧ c2 = 'm' ∧ c3 = 'p' ∧ c4 = '3' then removeDotMp3 rest
    else c1 :: removeDotMp3 (c2 :: c3 :: c4 :: rest)

/-- Python `s.replace('.m4a', '')`: delete every occurrence of `.m4a`. -/
def removeDotM4a : List Char → List Char
  | [] => []
  | [c] => [c]
  | [c1, c2] => [c1, c2]
  | [c1, c2, c3] => [c1, c2, c3]
  | c1 :: c2 :: c3 :: c4 :: rest =>
    if c1 = '.' ∧ c2 = 'm' ∧ c3 = '4' ∧ c4 = 'a' then removeDotM4a rest
    else c1 :: removeDotM4a (c2 :: c3 :: c4 :: rest)

/-- Python `s.replace('.m4a', '.mp3')`: replace every occurrence of `.m4a`
by `.mp3` (used for the bulk output filename). -/
def replaceM4aWithMp3 : List Char → List Char
  | [] => []
  | [c] => [c]
  | [c1, c2] => [c1, c2]
  | [c1, c2, c3] => [c1, c2, c3]
  | c1 :: c2 :: c3 :: c4 :: rest =>
    if c1 = '.' ∧ c2 = 'm' ∧ c3 = '4' ∧ c4 = 'a' then
      '.' :: 'm' :: 'p' :: '3' :: replaceM4aWithMp3 rest
    else c1 :: replaceM4aWithMp3 (c2 :: c3 :: c4 :: rest)

/-- `CrystalClearCompressor.extract_base_name` (compressor.py lines 53-67):
`name_without_ext = filename.replace('.mp3', '').replace('.m4a', '')`, then
`re.match(r'([A-Za-z]+)', name_without_ext)` (the longest leading ASCII-letter
run, succeeding iff the first character is a letter), with the fallback
`re.sub(r'\d+$', '', name_without_ext)`. -/
def extract_base_name (filename : List Char) : List Char :=
  let name_without_ext := removeDotM4a (removeDotMp3 filename)
  if name_without_ext.takeWhile isAsciiAlpha ≠ [] then
    name_without_ext.takeWhile isAsciiAlpha
  else stripTrailingDigits name_without_ext

/-- Modelled from the spec's words (section 4.1), for comparison with the code:
"strip known extensions (case-sensitive exact suffix match for the two
supported extensions)". -/
def removeKnownExtSuffix (s : List Char) : List Char :=
  if (".mp3").data.isSuffixOf s then s.take (s.length - 4)
  else if (".m4a").data.isSuffixOf s then s.take (s.length - 4)
  else s

/-- Modelled from the spec's words (section 4.1), for comparison with the code:
suffix-strip a known extension, then the longest leading alphabetic run, else
strip a trailing run of digits. -/
def base_name_claimed (filename : List Char) : List Char :=
  let stripped := removeKnownExtSuffix filename
  if stripped.takeWhile isAsciiAlpha ≠ [] then stripped.takeWhile isAsciiAlpha
  else stripTrailingDigits stripped

/-- `posixpath.join(a, b)` for one extra component: `b` if it is absolute,
else `a ++ b` when `a` is empty or ends in a separator, else `a ++ '/' ++ b`. -/
def osPathJoin (a b : List Char) : List Char :=
  if b.head? = some '/' then b
  else if a = [] ∨ a.getLast? = some '/' then a ++ b
  else a ++ '/' :: b

/-- `posixpath.basename(p)`: the part after the last `'/'`. -/
def osPathBasename (p : List Char) : List Char :=
  (p.reverse.takeWhile (fun c => c ≠ '/')).reverse

/-- `fnmatch` matching of the glob pattern `'*' ++ lit` (for a literal `lit`
containing no wildcard, the only shape `get_mp3_files` uses): the star absorbs
any leading characters and `lit` must match the remainder exactly. -/
def fnmatchStar (lit : List Char) : List Char → Bool
  | [] => lit == []
  | c :: rest => lit == c :: rest || fnmatchStar lit rest

/-- `glob.glob` matching of the pattern `'*' ++ lit` against one directory
entry: names beginning with a dot are hidden and are not matched by a pattern
that does not itself begin with a dot (and `'*' ++ lit` begins with `'*'`). -/
def globStar (lit : List Char) (name : List Char) : Bool :=
  if name.head? = some '.' then false else fnmatchStar lit name

/-- `CrystalClearCompressor.get_mp3_files` (compressor.py lines 422-426):
`glob.glob(os.path.join(directory, "*.mp3")) + glob.glob(os.path.join(directory,
"*.m4a"))`.  `listing` is the directory's entries in scan order; glob returns
each matching entry joined onto the directory part of the pattern. -/
def get_mp3_files (directory : List Char) (listing : List (List Char)) :
    List (List Char) :=
  let mp3_files := (listing.filter (globStar (".mp3").data)).map (osPathJoin directory)
  let m4a_files := (listing.filter (globStar (".m4a").data)).map (osPathJoin directory)
  mp3_files ++ m4a_files

/-- Modelled from the claim's words, for comparison with the code: discovery as
"exactly the files whose name ends in the lowercase suffix .mp3 or .m4a",
with no hidden-file rule. -/
def discovery_claimed (directory : List Char) (listing : List (List Char)) :
    List (List Char) :=
  ((listing.filter (fun n => (".mp3").data.isSuffixOf n)).map (osPathJoin directory))
    ++ ((listing.filter (fun n => (".m4a").data.isSuffixOf n)).map (osPathJoin directory))

/-- Modelled from the claim's words, for comparison with the code: the output
path with only a trailing `.m4a` extension remapped to `.mp3` and an `.mp3`
extension passing through unchanged. -/
def output_path_claimed (source_dir filename : List Char) : List Char :=
  let leaf := if (".m4a").data.isSuffixOf filename then
    filename.take (filename.length - 4) ++ (".mp3").data
  else filename
  osPathJoin (osPathJoin source_dir (extract_base_name filename)) leaf

/-- A snapshot of the shared filesystem as one `os.path.exists` / `os.path.getsize`
observation sees it.  Different stages may observe different snapshots, which
models concurrent mutation between the pre-dispatch checks and the transcode. -/
structure FS where
  pathExists : List Char → Bool
  getsize : List Char → Nat

/-- The behaviour of one `subprocess.run(['ffmpeg', ...], check=True)` call and
of the observations that follow it inside `compress_audio`:
`stderrIfFail = some s` means the encoder exited non-zero (raising
`CalledProcessError` with `e.stderr = s`); on a zero exit, whether the output
file exists, its size, the `ffprobe` metadata of the output (`none` when the
probe fails), whether the source still exists when the post-success deletion
looks for it, and whether `os.remove` raises `OSError`. -/
structure EncoderRun where
  stderrIfFail : Option (List Char)
  outputExistsAfter : Bool
  outputSizeAfter : Nat
  outputInfo : Option (List Char)
  sourceExistsAtDelete : Bool
  removeRaises : Bool

/-- `str(e)` for the `CalledProcessError` raised by a `check=True` run: Python
always renders it as "Command '...' returned non-zero exit status N.", a
non-empty string. -/
def strCalledProcessError : List Char :=
  ("Command returned non-zero exit status 1.").data

/-- The `info` dictionary returned by `compress_audio`; absent keys are `none`. -/
structure CompressInfo where
  success : Bool := false
  error : Option (List Char) := none
  skip : Bool := false
  input_size : Option Nat := none
  output_size : Option Nat := none
  compression_ratio : Option Rat := none
  output_info : Option (Option (List Char)) := none

/-- The value of one `compress_audio` call, with two ghost observations: whether
the external encoder was invoked at all, and how many times `os.remove` was
called on the source inside `compress_audio` itself. -/
structure CompressResult where
  ok : Bool
  info : CompressInfo
  encoderInvoked : Bool
  invokerRemoveCalls : Nat

/-- `CrystalClearCompressor.compress_audio` (compressor.py lines 115-244):
validate the input's existence and non-emptiness, run ffmpeg, then classify.
`compression_ratio = input_size / output_size if output_size > 0 else 0`
(Python float division, modelled exactly over `Rat`); on `CalledProcessError`,
`error_msg = e.stderr if e.stderr else str(e)`; the source is deleted inside
this function only when `delete_source` is set and the file still exists, with
`OSError` caught and ignored.  Verbose printing and the pre-encode
`get_audio_info` call affect no returned value and are not modelled. -/
def compress_audio (fs : FS) (run : EncoderRun) (input_file output_file : List Char)
    (delete_source : Bool) : CompressResult :=
  if fs.pathExists input_file = false then
    ⟨false, { error := some (("Input file not found: ").data ++ input_file) }, false, 0⟩
  else
    let input_size := fs.getsize input_file
    if input_size = 0 then
      ⟨false,
        { error := some (("Input file is empty (0 bytes): ").data ++ input_file),
          skip := true }, false, 0⟩
    else
      match run.stderrIfFail with
      | some stderr =>
        let error_msg := if stderr = [] then strCalledProcessError else stderr
        ⟨false, { error := some error_msg }, true, 0⟩
      | none =>
        if run.outputExistsAfter then
          let output_size := run.outputSizeAfter
          let ratio : Rat :=
            if output_size > 0 then (input_size : Rat) / (output_size : Rat) else 0
          let removes := if delete_source ∧ run.sourceExistsAtDelete then 1 else 0
          ⟨true,
            { success := true, input_size := some input_size,
              output_size := some output_size, compression_ratio := some ratio,
              output_info := some run.outputInfo }, true, removes⟩
        else
          ⟨false, { error := some (("Output file was not created").data) }, true, 0⟩

/-- The tuple `(input_file, output_file, filename, file_index, total_files)`
built once per discovered file in `bulk_compress`. -/
structure FileTask where
  input_file : List Char
  output_file : List Char
  filename : List Char
  file_index : Nat
  total_files : Nat
  deriving DecidableEq

/-- The environment one worker's `process_single_file` call runs in: the
filesystem snapshot its own pre-checks observe, the (possibly different)
snapshot `compress_audio` observes, the encoder's behaviour, the observations
of the caller-side deletion step, and whether the worker raises an unexpected
exception (caught in `bulk_compress`'s aggregation loop). -/
structure TaskEnv where
  fsPre : FS
  fsCompress : FS
  run : EncoderRun
  callerSourceExistsAtDelete : Bool
  callerRemoveRaises : Bool
  raisesUnexpected : Option (List Char)

/-- The `"status"` value of a `process_single_file` result dictionary. -/
inductive Status
  | success
  | skipped
  | failed
  deriving DecidableEq

/-- The dictionary returned by `process_single_file` (`error = none` when the
dictionary has no `"error"` key, `info = none` when it has no `"info"` key),
with ghost observations of the encoder invocation and of the `os.remove` calls
made inside `compress_audio` and inside `process_single_file` itself. -/
structure PSFResult where
  status : Status
  file : List Char
  error : Option (List Char)
  info : Option CompressInfo
  encoderInvoked : Bool
  invokerRemoveCalls : Nat
  callerRemoveCalls : Nat

/-- `CrystalClearCompressor.process_single_file` (compressor.py lines 246-322):
skip when the output already exists, when the input is missing, or when the
input is empty; otherwise call `compress_audio` with `delete_source=False`;
on success delete the source here (catching `OSError`); a failure flagged
`skip` is classified skipped, any other failure is classified failed with
`info.get('error', 'Unknown error')`. -/
def process_single_file (env : TaskEnv) (task : FileTask) : PSFResult :=
  if env.fsPre.pathExists task.output_file then
    ⟨Status.skipped, task.filename, none, none, false, 0, 0⟩
  else if env.fsPre.pathExists task.input_file = false then
    ⟨Status.skipped, task.filename, some (("Input file not found").data), none, false, 0, 0⟩
  else if env.fsPre.getsize task.input_file = 0 then
    ⟨Status.skipped, task.filename, some (("Empty file").data), none, false, 0, 0⟩
  else
    let r := compress_audio env.fsCompress env.run task.input_file task.output_file false
    if r.ok then
      let callerRemoves := if env.callerSourceExistsAtDelete then 1 else 0
      ⟨Status.success, task.filename, none, some r.info, r.encoderInvoked,
        r.invokerRemoveCalls, callerRemoves⟩
    else if r.info.skip then
      ⟨Status.skipped, task.filename,
        some (r.info.error.getD (("Unknown error").data)), none, r.encoderInvoked,
        r.invokerRemoveCalls, 0⟩
    else
      ⟨Status.failed, task.filename,
        some (r.info.error.getD (("Unknown error").data)), none, r.encoderInvoked,
        r.invokerRemoveCalls, 0⟩

/-- What `future.result()` yields for one task in the aggregation loop: either
the worker's result dictionary, or an exception (`Exception` branch, lines
392-397), in which case the filename is recovered from the task tuple. -/
inductive TaskOutcome
  | res (r : PSFResult)
  | exn (filename : List Char) (msg : List Char)

/-- The outcome one submitted task produces under its environment. -/
def outcomeOf (env : TaskEnv) (task : FileTask) : TaskOutcome :=
  match env.raisesUnexpected with
  | some m => TaskOutcome.exn task.filename m
  | none => TaskOutcome.res (process_single_file env task)

/-- The `results` dictionary of `bulk_compress`. -/
structure BulkResults where
  total_files : Nat
  processed : Nat
  skipped : Nat
  failed : Nat
  errors : List (List Char × List Char)

/-- `results` as initialised in `bulk_compress` (lines 346-352). -/
def initResults (m : Nat) : BulkResults := ⟨m, 0, 0, 0, []⟩

/-- One iteration of the `as_completed` aggregation loop (lines 381-397):
the status counter bumped, a failed result appended to `errors` as
`{"file": result["file"], "error": result["error"]}`, and an exception counted
as failed with message `"Unexpected error: " ++ str(e)`.  A failed
`process_single_file` result always carries an error message (see
`compress_audio_not_ok_error`), so the `getD` default is never read. -/
def foldOutcome (acc : BulkResults) : TaskOutcome → BulkResults
  | TaskOutcome.res r =>
    match r.status with
    | Status.success => { acc with processed := acc.processed + 1 }
    | Status.skipped => { acc with skipped := acc.skipped + 1 }
    | Status.failed =>
      { acc with
        failed := acc.failed + 1
        errors := acc.errors ++ [(r.file, r.error.getD [])] }
  | TaskOutcome.exn filename m =>
    { acc with
      failed := acc.failed + 1
      errors := acc.errors ++ [(filename, ("Unexpected error: ").data ++ m)] }

/-- The error-list entry an outcome contributes, if any. -/
def entryOf : TaskOutcome → Option (List Char × List Char)
  | TaskOutcome.res r =>
    if r.status = Status.failed then some (r.file, r.error.getD []) else none
  | TaskOutcome.exn filename m => some (filename, ("Unexpected error: ").data ++ m)

/-- The `file_tasks` list built in `bulk_compress` (lines 362-372):
`enumerate(audio_files, 1)`, `filename = os.path.basename(input_file)`,
`output_dir = os.path.join(source_directory, base_name)`,
`output_file = os.path.join(output_dir, filename.replace('.m4a', '.mp3'))`. -/
def file_tasks (source_directory : List Char) (listing : List (List Char)) :
    List FileTask :=
  let audio_files := get_mp3_files source_directory listing
  audio_files.enum.map (fun p =>
    let input_file := p.2
    let filename := osPathBasename input_file
    let base_name := extract_base_name filename
    let output_dir := osPathJoin source_directory base_name
    let output_file := osPathJoin output_dir (replaceM4aWithMp3 filename)
    ⟨input_file, output_file, filename, p.1 + 1, audio_files.length⟩)

/-- The outcomes of all tasks, in task order; each task is processed exactly
once, under the environment of its worker. -/
def taskOutcomes (source_directory : List Char) (listing : List (List Char))
    (envOf : Nat → TaskEnv) : List TaskOutcome :=
  (file_tasks source_directory listing).map
    (fun t => outcomeOf (envOf t.file_index) t)

/-- `CrystalClearCompressor.bulk_compress` (compressor.py lines 324-420):
discover the audio files, fail fast when none are found, and otherwise fold
every completed task outcome into the report.  `completed` is the task
outcomes in the (arbitrary) order `as_completed` delivers them; theorems
require it to be a permutation of `taskOutcomes`. -/
def bulk_compress (source_directory : List Char) (listing : List (List Char))
    (envOf : Nat → TaskEnv) (completed : List TaskOutcome) :
    Except (List Char) BulkResults :=
  let audio_files := get_mp3_files source_directory listing
  if audio_files.isEmpty then
    Except.error (("No MP3 or M4A files found in the directory").data)
  else Except.ok (completed.foldl foldOutcome (initResults audio_files.length))

example : extract_base_name (("BavaBatra46.mp3").data) = ("BavaBatra").data := by decide
example : extract_base_name (("123.mp3").data) = ([] : List Char) := by decide
example : extract_base_name (("a.mp3b.mp3").data) = ("ab").data := by decide
example : base_name_claimed (("a.mp3b.mp3").data) = ("a").data := by decide
example : extract_base_name (("1.mp3a.mp3").data) = ("1a").data := by decide
example : stripTrailingDigits (removeKnownExtSuffix (("1.mp3a.mp3").data))
    = ("1.mp3a").data := by decide
example : get_mp3_files (("/d").data) [(".b.mp3").data] = [] := by decide
example : discovery_claimed (("/d").data) [(".b.mp3").data] = [("/d/.b.mp3").data] := by decide
example : replaceM4aWithMp3 (("a.m4a.mp3").data) = ("a.mp3.mp3").data := by decide
example : output_path_claimed (("/d").data) (("a.m4a.mp3").data) = ("/d/a/a.m4a.mp3").data := by
  decide
example : get_mp3_files (("/d").data) [("a.mp3").data, ("b.m4a").data]
    = [("/d/a.mp3").data, ("/d/b.m4a").data] := by decide

/-- A failed `compress_audio` call always carries a non-empty error message. -/
theorem compress_audio_not_ok_error (fs : FS) (run : EncoderRun)
    (input_file output_file : List Char) (delete_source : Bool)
    (h : (compress_audio fs run input_file output_file delete_source).ok = false) :
    ∃ m, (compress_audio fs run input_file output_file delete_source).info.error = some m
      ∧ m ≠ [] := by
  by_cases h1 : fs.pathExists input_file = false
  · refine ⟨("Input file not found: ").data ++ input_file, ?_, by simp⟩
    simp [compress_audio, h1]
  · by_cases h2 : fs.getsize input_file = 0
    · refine ⟨("Input file is empty (0 bytes): ").data ++ input_file, ?_, by simp⟩
      simp [compress_audio, h1, h2]
    · cases hs : run.stderrIfFail with
      | some stderr =>
        by_cases he : stderr = []
        · refine ⟨strCalledProcessError, ?_, by decide⟩
          simp [compress_audio, h1, h2, hs, he]
        · refine ⟨stderr, ?_, he⟩
          simp [compress_audio, h1, h2, hs, he]
      | none =>
        by_cases ho : run.outputExistsAfter = true
        · exfalso
          simp [compress_audio, h1, h2, hs, ho] at h
        · refine ⟨("Output file was not created").data, ?_, by decide⟩
          simp [compress_audio, h1, h2, hs, ho]

/-- C3: if the output path already exists when the worker's pre-check observes
the filesystem, the task is classified Skipped by the first terminal branch
(its result dictionary carries no error key, which distinguishes the
"already exists" skip from the later skip branches), for every state of the
input-file existence and size observations; the encoder is never invoked for
it, so the existing output file is never rewritten, and no deletion happens. -/
theorem existing_output_skips (env : TaskEnv) (task : FileTask)
    (h : env.fsPre.pathExists task.output_file = true) :
    (process_single_file env task).status = Status.skipped ∧
    (process_single_file env task).error = none ∧
    (process_single_file env task).encoderInvoked = false ∧
    (process_single_file env task).invokerRemoveCalls = 0 ∧
    (process_single_file env task).callerRemoveCalls = 0 := by
  unfold process_single_file
  simp [h]

/-- Witness for `existing_output_skips` at a concrete task and environment. -/
theorem existing_output_skips_witness :
    (FS.pathExists ⟨fun _ => true, fun _ => 7⟩ (("B/B1.mp3").data) = true) ∧
    (process_single_file
      ⟨⟨fun _ => true, fun _ => 7⟩, ⟨fun _ => true, fun _ => 7⟩,
        ⟨none, true, 3, none, true, false⟩, true, false, none⟩
      ⟨("B1.mp3").data, ("B/B1.mp3").data, ("B1.mp3").data, 1, 1⟩).status
      = Status.skipped :=
  ⟨rfl,
    (existing_output_skips
      ⟨⟨fun _ => true, fun _ => 7⟩, ⟨fun _ => true, fun _ => 7⟩,
        ⟨none, true, 3, none, true, false⟩, true, false, none⟩
      ⟨("B1.mp3").data, ("B/B1.mp3").data, ("B1.mp3").data, 1, 1⟩ rfl).1⟩

/-- C4: an input that exists and is 0 bytes — whether observed by the worker's
pre-dispatch size check (`fsPre`) or only by the check inside the transcode
step (`fsCompress`, the `skip`-flagged "empty file" error, possible when the
two observations race) — is classified Skipped, never Failed, and the external
encoder is never invoked for it. -/
theorem empty_input_skipped (env : TaskEnv) (task : FileTask)
    (h : (env.fsPre.pathExists task.input_file = true
            ∧ env.fsPre.getsize task.input_file = 0)
       ∨ (env.fsCompress.pathExists task.input_file = true
            ∧ env.fsCompress.getsize task.input_file = 0)) :
    (process_single_file env task).status = Status.skipped ∧
    (process_single_file env task).encoderInvoked = false := by
  by_cases ho : env.fsPre.pathExists task.output_file = true
  · simp [process_single_file, ho]
  · rcases h with ⟨h1, h2⟩ | ⟨h1, h2⟩
    · simp [process_single_file, ho, h1, h2]
    · by_cases hi : env.fsPre.pathExists task.input_file = false
      · simp [process_single_file, ho, hi]
      · by_cases hz : env.fsPre.getsize task.input_file = 0
        · simp [process_single_file, ho, hi, hz]
        · have h1' : env.fsCompress.pathExists task.input_file = false ↔ False := by
            simp [h1]
          simp [process_single_file, ho, hi, hz, compress_audio, h1, h2]

/-- Witness for `empty_input_skipped`: the emptiness is seen only inside the
transcode step (the pre-dispatch check saw a non-empty file). -/
theorem empty_input_skipped_witness :
    ((FS.pathExists ⟨fun p => p ≠ ("B/B1.mp3").data, fun _ => 9⟩ (("B1.mp3").data) = true
        ∧ FS.getsize ⟨fun p => p ≠ ("B/B1.mp3").data, fun _ => 9⟩ (("B1.mp3").data) = 0)
      ∨ (FS.pathExists ⟨fun _ => true, fun _ => 0⟩ (("B1.mp3").data) = true
        ∧ FS.getsize ⟨fun _ => true, fun _ => 0⟩ (("B1.mp3").data) = 0)) ∧
    (process_single_file
      ⟨⟨fun p => p ≠ ("B/B1.mp3").data, fun _ => 9⟩, ⟨fun _ => true, fun _ => 0⟩,
        ⟨none, true, 3, none, true, false⟩, true, false, none⟩
      ⟨("B1.mp3").data, ("B/B1.mp3").data, ("B1.mp3").data, 1, 1⟩).status
        = Status.skipped ∧
    (process_single_file
      ⟨⟨fun p => p ≠ ("B/B1.mp3").data, fun _ => 9⟩, ⟨fun _ => true, fun _ => 0⟩,
        ⟨none, true, 3, none, true, false⟩, true, false, none⟩
      ⟨("B1.mp3").data, ("B/B1.mp3").data, ("B1.mp3").data, 1, 1⟩).encoderInvoked
        = false := by
  refine ⟨Or.inr ⟨rfl, rfl⟩, ?_, ?_⟩
  · exact (empty_input_skipped _ _ (Or.inr ⟨rfl, rfl⟩)).1
  · exact (empty_input_skipped _ _ (Or.inr ⟨rfl, rfl⟩)).2

/-- C5: with the preconditions satisfied (input exists and is non-empty at the
time `compress_audio` observes it): a non-zero encoder exit is classified as a
non-skippable failure carrying the captured stderr text (or Python's non-empty
`str(e)` rendering when stderr is empty); a zero exit with no output file
present yields the "Output file was not created" error; a zero exit with an
output present succeeds, with `compression_ratio = input_size / output_size`
(`0` when `output_size = 0`, which over `Rat` is the same formula); and the
overall result never depends on whether the post-encode metadata probe of the
output parsed (`outputInfo = none` models a failed probe). -/
theorem transcode_postconditions (fs : FS) (run : EncoderRun)
    (input_file output_file : List Char) (delete_source : Bool)
    (hex : fs.pathExists input_file = true) (hsz : fs.getsize input_file ≠ 0) :
    (∀ stderr, run.stderrIfFail = some stderr →
      (compress_audio fs run input_file output_file delete_source).ok = false ∧
      (compress_audio fs run input_file output_file delete_source).info.skip = false ∧
      (compress_audio fs run input_file output_file delete_source).info.error
        = some (if stderr = [] then strCalledProcessError else stderr)) ∧
    (run.stderrIfFail = none → run.outputExistsAfter = false →
      (compress_audio fs run input_file output_file delete_source).ok = false ∧
      (compress_audio fs run input_file output_file delete_source).info.error
        = some (("Output file was not created").data)) ∧
    (run.stderrIfFail = none → run.outputExistsAfter = true →
      (compress_audio fs run input_file output_file delete_source).ok = true ∧
      (compress_audio fs run input_file output_file delete_source).info.compression_ratio
        = some ((fs.getsize input_file : Rat) / (run.outputSizeAfter : Rat)) ∧
      (run.outputSizeAfter = 0 →
        (compress_audio fs run input_file output_file
          delete_source).info.compression_ratio = some 0)) ∧
    (∀ mi, (compress_audio fs { run with outputInfo := mi }
        input_file output_file delete_source).ok
      = (compress_audio fs run input_file output_file delete_source).ok) := by
  refine ⟨?_, ?_, ?_, ?_⟩
  · intro stderr hs
    refine ⟨?_, ?_, ?_⟩ <;> simp [compress_audio, hex, hsz, hs]
  · intro h1 h2
    refine ⟨?_, ?_⟩ <;> simp [compress_audio, hex, hsz, h1, h2]
  · intro h1 h2
    refine ⟨by simp [compress_audio, hex, hsz, h1, h2], ?_, ?_⟩
    · by_cases hz : run.outputSizeAfter = 0
      · simp [compress_audio, hex, hsz, h1, h2, hz]
      · have hpos : run.outputSizeAfter > 0 := Nat.pos_of_ne_zero hz
        simp [compress_audio, hex, hsz, h1, h2, hpos]
    · intro hz
      simp [compress_audio, hex, hsz, h1, h2, hz]
  · intro mi
    cases hs : run.stderrIfFail with
    | some stderr => simp [compress_audio, hex, hsz, hs]
    | none =>
      by_cases ho : run.outputExistsAfter = true <;>
        simp [compress_audio, hex, hsz, hs, ho]

/-- Witness for `transcode_postconditions`: a concrete successful transcode of
a 10-byte input into a 4-byte output. -/
theorem transcode_postconditions_witness :
    (compress_audio ⟨fun _ => true, fun _ => 10⟩ ⟨none, true, 4, none, true, false⟩
      (("a.mp3").data) (("B/a.mp3").data) false).ok = true ∧
    (compress_audio ⟨fun _ => true, fun _ => 10⟩ ⟨none, true, 4, none, true, false⟩
      (("a.mp3").data) (("B/a.mp3").data) false).info.compression_ratio
      = some (((10 : Nat) : Rat) / ((4 : Nat) : Rat)) := by
  have h := (transcode_postconditions ⟨fun _ => true, fun _ => 10⟩
    ⟨none, true, 4, none, true, false⟩ (("a.mp3").data) (("B/a.mp3").data) false
    rfl (by decide)).2.2.1 rfl rfl
  exact ⟨h.1, h.2.1⟩

/-- `compress_audio` called with `delete_source = False` (as the bulk path
always does) never removes the source itself. -/
theorem compress_audio_delete_source_false (fs : FS) (run : EncoderRun)
    (input_file output_file : List Char) :
    (compress_audio fs run input_file output_file false).invokerRemoveCalls = 0 := by
  by_cases h1 : fs.pathExists input_file = false
  · simp [compress_audio, h1]
  · by_cases h2 : fs.getsize input_file = 0
    · simp [compress_audio, h1, h2]
    · cases hs : run.stderrIfFail with
      | some stderr => simp [compress_audio, h1, h2, hs]
      | none =>
        by_cases ho : run.outputExistsAfter = true <;>
          simp [compress_audio, h1, h2, hs, ho]

/-- Counterexample to C6 as stated: `compress_audio` — the Transcode Invoker —
deletes the source file itself whenever its `delete_source` flag is set, and
that flag defaults to `True` and is passed as `True` by the single-file mode
(compressor.py line 530).  Here a concrete successful invocation with
`delete_source = True` performs the deletion inside the Invoker. -/
theorem invoker_deletes_source_counterexample :
    (compress_audio ⟨fun _ => true, fun _ => 5⟩ ⟨none, true, 4, none, true, false⟩
      (("in.wav").data) (("out.mp3").data) true).ok = true ∧
    (compress_audio ⟨fun _ => true, fun _ => 5⟩ ⟨none, true, 4, none, true, false⟩
      (("in.wav").data) (("out.mp3").data) true).invokerRemoveCalls = 1 := by
  exact ⟨rfl, rfl⟩

/-- C6 (amended): in the bulk pipeline, `process_single_file` passes
`delete_source = False`, so the Invoker performs no deletion there and the
deletion is the caller's explicit step; that step runs only after a Success
result, `os.remove` is called at most once per task, and a deletion failure
(`OSError`, modelled by the `RemoveRaises` fields, which the results never
depend on) is logged and ignored without downgrading the Outcome from
Success.  (The Invoker itself does delete when its `delete_source` flag is
set, as the single-file mode does — see the counterexample.) -/
theorem source_deletion_policy (env : TaskEnv) (task : FileTask) :
    (process_single_file env task).invokerRemoveCalls = 0 ∧
    ((process_single_file env task).callerRemoveCalls ≠ 0 →
      (process_single_file env task).status = Status.success) ∧
    (process_single_file env task).invokerRemoveCalls
      + (process_single_file env task).callerRemoveCalls ≤ 1 ∧
    (∀ b, process_single_file
        { env with callerRemoveRaises := b } task
      = process_single_file env task) ∧
    (∀ fs run i o d b,
      compress_audio fs { run with removeRaises := b } i o d
        = compress_audio fs run i o d) := by
  refine ⟨?_, ?_, ?_, ?_, ?_⟩
  · by_cases ho : env.fsPre.pathExists task.output_file = true
    · simp [process_single_file, ho]
    · by_cases hi : env.fsPre.pathExists task.input_file = false
      · simp [process_single_file, ho, hi]
      · by_cases hz : env.fsPre.getsize task.input_file = 0
        · simp [process_single_file, ho, hi, hz]
        · by_cases hr : (compress_audio env.fsCompress env.run task.input_file
              task.output_file false).ok = true
          · simp [process_single_file, ho, hi, hz, hr,
              compress_audio_delete_source_false]
          · by_cases hk : (compress_audio env.fsCompress env.run task.input_file
                task.output_file false).info.skip = true <;>
              simp [process_single_file, ho, hi, hz, hr, hk,
                compress_audio_delete_source_false]
  · by_cases ho : env.fsPre.pathExists task.output_file = true
    · simp [process_single_file, ho]
    · by_cases hi : env.fsPre.pathExists task.input_file = false
      · simp [process_single_file, ho, hi]
      · by_cases hz : env.fsPre.getsize task.input_file = 0
        · simp [process_single_file, ho, hi, hz]
        · by_cases hr : (compress_audio env.fsCompress env.run task.input_file
              task.output_file false).ok = true
          · simp [process_single_file, ho, hi, hz, hr]
          · by_cases hk : (compress_audio env.fsCompress env.run task.input_file
                task.output_file false).info.skip = true <;>
              simp [process_single_file, ho, hi, hz, hr, hk]
  · by_cases ho : env.fsPre.pathExists task.output_file = true
    · simp [process_single_file, ho]
    · by_cases hi : env.fsPre.pathExists task.input_file = false
      · simp [process_single_file, ho, hi]
      · by_cases hz : env.fsPre.getsize task.input_file = 0
        · simp [process_single_file, ho, hi, hz]
        · by_cases hr : (compress_audio env.fsCompress env.run task.input_file
              task.output_file false).ok = true
          · by_cases hd : env.callerSourceExistsAtDelete = true <;>
              simp [process_single_file, ho, hi, hz, hr, hd,
                compress_audio_delete_source_false]
          · by_cases hk : (compress_audio env.fsCompress env.run task.input_file
                task.output_file false).info.skip = true <;>
              simp [process_single_file, ho, hi, hz, hr, hk,
                compress_audio_delete_source_false]
  · intro b
    cases env
    rfl
  · intro fs run i o d b
    cases run
    rfl

/-- Witness for `source_deletion_policy` at a concrete environment and task. -/
theorem source_deletion_policy_witness :
    (process_single_file
      ⟨⟨fun p => p ≠ ("B/B1.mp3").data, fun _ => 9⟩, ⟨fun _ => true, fun _ => 9⟩,
        ⟨none, true, 3, none, true, false⟩, true, false, none⟩
      ⟨("B1.mp3").data, ("B/B1.mp3").data, ("B1.mp3").data, 1, 1⟩).invokerRemoveCalls
      = 0 ∧
    ((process_single_file
      ⟨⟨fun p => p ≠ ("B/B1.mp3").data, fun _ => 9⟩, ⟨fun _ => true, fun _ => 9⟩,
        ⟨none, true, 3, none, true, false⟩, true, false, none⟩
      ⟨("B1.mp3").data, ("B/B1.mp3").data, ("B1.mp3").data, 1, 1⟩).callerRemoveCalls ≠ 0 →
      (process_single_file
        ⟨⟨fun p => p ≠ ("B/B1.mp3").data, fun _ => 9⟩, ⟨fun _ => true, fun _ => 9⟩,
          ⟨none, true, 3, none, true, false⟩, true, false, none⟩
        ⟨("B1.mp3").data, ("B/B1.mp3").data, ("B1.mp3").data, 1, 1⟩).status
        = Status.success) := by
  have h := source_deletion_policy
    ⟨⟨fun p => p ≠ ("B/B1.mp3").data, fun _ => 9⟩, ⟨fun _ => true, fun _ => 9⟩,
      ⟨none, true, 3, none, true, false⟩, true, false, none⟩
    ⟨("B1.mp3").data, ("B/B1.mp3").data, ("B1.mp3").data, 1, 1⟩
  exact ⟨h.1, h.2.1⟩

/-- Each aggregated outcome bumps exactly one of the three counters by one and
leaves `total_files` unchanged. -/
theorem foldOutcome_step (acc : BulkResults) (o : TaskOutcome) :
    (foldOutcome acc o).processed + (foldOutcome acc o).skipped
        + (foldOutcome acc o).failed
      = acc.processed + acc.skipped + acc.failed + 1 ∧
    (foldOutcome acc o).total_files = acc.total_files := by
  cases o with
  | res r =>
    cases hr : r.status <;> simp [foldOutcome, hr] <;> omega
  | exn f m =>
    simp [foldOutcome]
    omega

/-- Folding a list of outcomes adds its length to the counter sum and keeps
`total_files`. -/
theorem foldl_counts (outs : List TaskOutcome) : ∀ acc : BulkResults,
    ((outs.foldl foldOutcome acc).processed + (outs.foldl foldOutcome acc).skipped
        + (outs.foldl foldOutcome acc).failed
      = acc.processed + acc.skipped + acc.failed + outs.length) ∧
    (outs.foldl foldOutcome acc).total_files = acc.total_files := by
  induction outs with
  | nil => intro acc; simp
  | cons o rest ih =>
    intro acc
    obtain ⟨h1a, h1b⟩ := foldOutcome_step acc o
    obtain ⟨h2a, h2b⟩ := ih (foldOutcome acc o)
    constructor
    · simp only [List.foldl_cons, List.length_cons]
      omega
    · simp only [List.foldl_cons]
      rw [h2b, h1b]

/-- Aggregation never drops an error entry already recorded. -/
theorem errors_mono (outs : List TaskOutcome) : ∀ (acc : BulkResults)
    (e : List Char × List Char), e ∈ acc.errors →
    e ∈ (outs.foldl foldOutcome acc).errors := by
  induction outs with
  | nil => intro acc e h; simpa using h
  | cons o rest ih =>
    intro acc e h
    apply ih
    cases o with
    | res r =>
      cases hr : r.status
      · simpa [foldOutcome, hr] using h
      · simpa [foldOutcome, hr] using h
      · simp [foldOutcome, hr]
        exact Or.inl h
    | exn f m =>
      simp [foldOutcome]
      exact Or.inl h

/-- An outcome that contributes an error entry has that entry in the folded
report's error list. -/
theorem errors_mem_foldl (outs : List TaskOutcome) : ∀ (acc : BulkResults)
    (o : TaskOutcome) (e : List Char × List Char), o ∈ outs → entryOf o = some e →
    e ∈ (outs.foldl foldOutcome acc).errors := by
  induction outs with
  | nil => intro acc o e h _; simp at h
  | cons p rest ih =>
    intro acc o e hmem hent
    rcases List.mem_cons.mp hmem with rfl | hmem2
    · simp only [List.foldl_cons]
      apply errors_mono
      cases o with
      | res r =>
        by_cases hr : r.status = Status.failed
        · simp [entryOf, hr] at hent
          simp [foldOutcome, hr]
          exact Or.inr hent.symm
        · simp [entryOf, hr] at hent
      | exn f m =>
        simp [entryOf] at hent
        simp [foldOutcome]
        exact Or.inr hent.symm
    · simp only [List.foldl_cons]
      exact ih (foldOutcome acc p) o e hmem2 hent

/-- Every `process_single_file` result carries its own task's filename. -/
theorem process_single_file_file (env : TaskEnv) (task : FileTask) :
    (process_single_file env task).file = task.filename := by
  by_cases ho : env.fsPre.pathExists task.output_file = true
  · simp [process_single_file, ho]
  · by_cases hi : env.fsPre.pathExists task.input_file = false
    · simp [process_single_file, ho, hi]
    · by_cases hz : env.fsPre.getsize task.input_file = 0
      · simp [process_single_file, ho, hi, hz]
      · by_cases hr : (compress_audio env.fsCompress env.run task.input_file
            task.output_file false).ok = true
        · simp [process_single_file, ho, hi, hz, hr]
        · by_cases hk : (compress_audio env.fsCompress env.run task.input_file
              task.output_file false).info.skip = true <;>
            simp [process_single_file, ho, hi, hz, hr, hk]

/-- A result classified failed always carries a non-empty error message. -/
theorem process_single_file_failed_error (env : TaskEnv) (task : FileTask)
    (h : (process_single_file env task).status = Status.failed) :
    ∃ m, (process_single_file env task).error = some m ∧ m ≠ [] := by
  by_cases ho : env.fsPre.pathExists task.output_file = true
  · simp [process_single_file, ho] at h
  · by_cases hi : env.fsPre.pathExists task.input_file = false
    · simp [process_single_file, ho, hi] at h
    · by_cases hz : env.fsPre.getsize task.input_file = 0
      · simp [process_single_file, ho, hi, hz] at h
      · by_cases hr : (compress_audio env.fsCompress env.run task.input_file
            task.output_file false).ok = true
        · simp [process_single_file, ho, hi, hz, hr] at h
        · by_cases hk : (compress_audio env.fsCompress env.run task.input_file
              task.output_file false).info.skip = true
          · simp [process_single_file, ho, hi, hz, hr, hk] at h
          · obtain ⟨m, hm, hne⟩ := compress_audio_not_ok_error env.fsCompress env.run
              task.input_file task.output_file false (by simpa using hr)
            refine ⟨m, ?_, hne⟩
            simp [process_single_file, ho, hi, hz, hr, hk, hm]

/-- C1: a bulk run over a directory with at least one candidate file returns a
report in which every discovered file is counted exactly once in exactly one
of processed / skipped / failed, whatever order the task outcomes complete and
are aggregated in (`completed` is any permutation of the per-task outcomes). -/
theorem bulk_report_counts (source_directory : List Char)
    (listing : List (List Char)) (envOf : Nat → TaskEnv)
    (completed : List TaskOutcome)
    (hM : get_mp3_files source_directory listing ≠ [])
    (hperm : completed.Perm (taskOutcomes source_directory listing envOf)) :
    ∃ rep, bulk_compress source_directory listing envOf completed
        = Except.ok rep ∧
      rep.processed + rep.skipped + rep.failed = rep.total_files ∧
      rep.total_files = (get_mp3_files source_directory listing).length := by
  have hne : ¬ (get_mp3_files source_directory listing).isEmpty = true := by
    simpa [List.isEmpty_iff] using hM
  refine ⟨completed.foldl foldOutcome
    (initResults (get_mp3_files source_directory listing).length), ?_, ?_, ?_⟩
  · simp [bulk_compress, hne]
  · obtain ⟨ha, hb⟩ := foldl_counts completed
      (initResults (get_mp3_files source_directory listing).length)
    have hlen : completed.length
        = (get_mp3_files source_directory listing).length := by
      rw [hperm.length_eq]
      simp [taskOutcomes, file_tasks]
    simp only [initResults] at ha hb ⊢
    omega
  · obtain ⟨ha, hb⟩ := foldl_counts completed
      (initResults (get_mp3_files source_directory listing).length)
    simpa [initResults] using hb

/-- Witness for `bulk_report_counts`: one discovered file, outcomes aggregated
in task order. -/
theorem bulk_report_counts_witness :
    (get_mp3_files (("/d").data) [("a.mp3").data] ≠ []) ∧
    ∃ rep, bulk_compress (("/d").data) [("a.mp3").data]
        (fun _ => ⟨⟨fun _ => false, fun _ => 0⟩, ⟨fun _ => false, fun _ => 0⟩,
          ⟨none, false, 0, none, false, false⟩, false, false, none⟩)
        (taskOutcomes (("/d").data) [("a.mp3").data]
          (fun _ => ⟨⟨fun _ => false, fun _ => 0⟩, ⟨fun _ => false, fun _ => 0⟩,
            ⟨none, false, 0, none, false, false⟩, false, false, none⟩))
        = Except.ok rep ∧
      rep.processed + rep.skipped + rep.failed = rep.total_files ∧
      rep.total_files = (get_mp3_files (("/d").data) [("a.mp3").data]).length :=
  ⟨by decide, bulk_report_counts _ _ _ _ (by decide) (List.Perm.refl _)⟩

/-- C2: one task's failure never aborts the batch — the report is the fold of
the outcomes of all tasks (so the counters account for every task), and every
task whose outcome contributes an error entry (a result classified failed, or
a worker exception) appears in the report's error list paired with its own
filename and a non-empty diagnostic message. -/
theorem bulk_failures_reported (source_directory : List Char)
    (listing : List (List Char)) (envOf : Nat → TaskEnv)
    (completed : List TaskOutcome)
    (hM : get_mp3_files source_directory listing ≠ [])
    (hperm : completed.Perm (taskOutcomes source_directory listing envOf)) :
    ∃ rep, bulk_compress source_directory listing envOf completed
        = Except.ok rep ∧
      rep.processed + rep.skipped + rep.failed
        = (file_tasks source_directory listing).length ∧
      ∀ t ∈ file_tasks source_directory listing,
        ∀ e, entryOf (outcomeOf (envOf t.file_index) t) = some e →
          e.1 = t.filename ∧ e.2 ≠ [] ∧ e ∈ rep.errors := by
  have hne : ¬ (get_mp3_files source_directory listing).isEmpty = true := by
    simpa [List.isEmpty_iff] using hM
  refine ⟨completed.foldl foldOutcome
    (initResults (get_mp3_files source_directory listing).length), ?_, ?_, ?_⟩
  · simp [bulk_compress, hne]
  · obtain ⟨ha, hb⟩ := foldl_counts completed
      (initResults (get_mp3_files source_directory listing).length)
    have hlen : completed.length = (file_tasks source_directory listing).length := by
      rw [hperm.length_eq]
      simp [taskOutcomes]
    simp only [initResults] at ha ⊢
    omega
  · intro t ht e hent
    have hmem : outcomeOf (envOf t.file_index) t
        ∈ taskOutcomes source_directory listing envOf :=
      List.mem_map_of_mem (fun t => outcomeOf (envOf t.file_index) t) ht
    have hmem2 : outcomeOf (envOf t.file_index) t ∈ completed :=
      hperm.mem_iff.mpr hmem
    refine ⟨?_, ?_, errors_mem_foldl completed _ _ e hmem2 hent⟩
    · cases hu : envOf t.file_index |>.raisesUnexpected with
      | some m =>
        simp [outcomeOf, hu, entryOf] at hent
        simp [← hent]
      | none =>
        simp only [outcomeOf, hu] at hent
        by_cases hr : (process_single_file (envOf t.file_index) t).status
            = Status.failed
        · simp [entryOf, hr] at hent
          rw [← hent]
          simp [process_single_file_file]
        · simp [entryOf, hr] at hent
    · cases hu : envOf t.file_index |>.raisesUnexpected with
      | some m =>
        simp [outcomeOf, hu, entryOf] at hent
        simp [← hent]
      | none =>
        simp only [outcomeOf, hu] at hent
        by_cases hr : (process_single_file (envOf t.file_index) t).status
            = Status.failed
        · obtain ⟨m, hm, hmne⟩ :=
            process_single_file_failed_error (envOf t.file_index) t hr
          simp [entryOf, hr] at hent
          rw [← hent]
          simp [hm, hmne]
        · simp [entryOf, hr] at hent

/-- Witness for `bulk_failures_reported`: a single file whose encoder
invocation fails with a captured diagnostic. -/
theorem bulk_failures_reported_witness :
    (get_mp3_files (("/e").data) [("b.mp3").data] ≠ []) ∧
    ∃ rep, bulk_compress (("/e").data) [("b.mp3").data]
        (fun _ => ⟨⟨fun p => p ≠ ("/e/b/b.mp3").data, fun _ => 5⟩,
          ⟨fun p => p ≠ ("/e/b/b.mp3").data, fun _ => 5⟩,
          ⟨some (("boom").data), false, 0, none, false, false⟩, false, false, none⟩)
        (taskOutcomes (("/e").data) [("b.mp3").data]
          (fun _ => ⟨⟨fun p => p ≠ ("/e/b/b.mp3").data, fun _ => 5⟩,
            ⟨fun p => p ≠ ("/e/b/b.mp3").data, fun _ => 5⟩,
            ⟨some (("boom").data), false, 0, none, false, false⟩, false, false, none⟩))
        = Except.ok rep ∧
      rep.processed + rep.skipped + rep.failed
        = (file_tasks (("/e").data) [("b.mp3").data]).length ∧
      ∀ t ∈ file_tasks (("/e").data) [("b.mp3").data],
        ∀ e, entryOf (outcomeOf
            ((fun _ => (⟨⟨fun p => p ≠ ("/e/b/b.mp3").data, fun _ => 5⟩,
              ⟨fun p => p ≠ ("/e/b/b.mp3").data, fun _ => 5⟩,
              ⟨some (("boom").data), false, 0, none, false, false⟩, false, false,
              none⟩ : TaskEnv)) t.file_index) t) = some e →
          e.1 = t.filename ∧ e.2 ≠ [] ∧ e ∈ rep.errors :=
  ⟨by decide, bulk_failures_reported _ _ _ _ (by decide) (List.Perm.refl _)⟩

/-- An ASCII digit is not an ASCII letter. -/
theorem isAsciiDigit_not_alpha {c : Char} (h : isAsciiDigit c = true) :
    isAsciiAlpha c = false := by
  simp only [isAsciiDigit, decide_eq_true_eq] at h
  simp only [isAsciiAlpha, decide_eq_false_iff_not, not_or, not_and, not_le]
  omega

/-- An ASCII letter is not a dot. -/
theorem isAsciiAlpha_ne_dot {c : Char} (h : isAsciiAlpha c = true) : c ≠ '.' := by
  intro he
  subst he
  simp [isAsciiAlpha] at h

/-- An ASCII digit is not a dot. -/
theorem isAsciiDigit_ne_dot {c : Char} (h : isAsciiDigit c = true) : c ≠ '.' := by
  intro he
  subst he
  simp [isAsciiDigit] at h

/-- The `.mp3`-deletion copies a character other than a dot. -/
theorem removeDotMp3_cons_ne (c : Char) (w : List Char) (h : c ≠ '.') :
    removeDotMp3 (c :: w) = c :: removeDotMp3 w := by
  match w with
  | [] => rfl
  | [c2] => rfl
  | [c2, c3] => rfl
  | c2 :: c3 :: c4 :: w4 => simp [removeDotMp3, h]

/-- The `.m4a`-deletion copies a character other than a dot. -/
theorem removeDotM4a_cons_ne (c : Char) (w : List Char) (h : c ≠ '.') :
    removeDotM4a (c :: w) = c :: removeDotM4a w := by
  match w with
  | [] => rfl
  | [c2] => rfl
  | [c2, c3] => rfl
  | c2 :: c3 :: c4 :: w4 => simp [removeDotM4a, h]

/-- The `.mp3`-deletion passes over a dot-free block unchanged. -/
theorem removeDotMp3_append_no_dot (u v : List Char) (h : ∀ c ∈ u, c ≠ '.') :
    removeDotMp3 (u ++ v) = u ++ removeDotMp3 v := by
  induction u with
  | nil => simp
  | cons c u ih =>
    have hc : c ≠ '.' := h c (List.mem_cons_self c u)
    rw [List.cons_append, removeDotMp3_cons_ne c (u ++ v) hc,
      ih (fun x hx => h x (List.mem_cons_of_mem c hx))]
    rfl

/-- The `.m4a`-deletion passes over a dot-free block unchanged. -/
theorem removeDotM4a_append_no_dot (u v : List Char) (h : ∀ c ∈ u, c ≠ '.') :
    removeDotM4a (u ++ v) = u ++ removeDotM4a v := by
  induction u with
  | nil => simp
  | cons c u ih =>
    have hc : c ≠ '.' := h c (List.mem_cons_self c u)
    rw [List.cons_append, removeDotM4a_cons_ne c (u ++ v) hc,
      ih (fun x hx => h x (List.mem_cons_of_mem c hx))]
    rfl

/-- `takeWhile` passes over a block of elements satisfying the predicate. -/
theorem takeWhile_append_all (p : Char → Bool) (u v : List Char)
    (h : ∀ c ∈ u, p c = true) :
    (u ++ v).takeWhile p = u ++ v.takeWhile p := by
  induction u with
  | nil => simp
  | cons c u ih =>
    rw [List.cons_append, List.takeWhile_cons_of_pos (h c (List.mem_cons_self c u)),
      ih (fun x hx => h x (List.mem_cons_of_mem c hx)), List.cons_append]

/-- The head of `dropWhile p` does not satisfy `p`. -/
theorem head_dropWhile_not (p : Char → Bool) (l : List Char) :
    ∀ c, (l.dropWhile p).head? = some c → p c = false := by
  induction l with
  | nil => intro c h; simp at h
  | cons a l ih =>
    intro c h
    by_cases ha : p a = true
    · rw [List.dropWhile_cons_of_pos ha] at h
      exact ih c h
    · rw [List.dropWhile_cons_of_neg ha] at h
      simp at h
      rw [← h]
      simpa using ha

/-- Counterexample to C7 as stated: the code removes every occurrence of
`.mp3` / `.m4a`, not just a suffix, so on `a.mp3b.mp3` it yields `ab` where
the claimed suffix-strip-then-leading-letters algorithm yields `a`. -/
theorem extract_base_name_not_suffix_strip_counterexample :
    extract_base_name (("a.mp3b.mp3").data) = ("ab").data ∧
    base_name_claimed (("a.mp3b.mp3").data) = ("a").data ∧
    extract_base_name (("a.mp3b.mp3").data)
      ≠ base_name_claimed (("a.mp3b.mp3").data) := by
  refine ⟨by decide, by decide, by decide⟩

/-- C7 (amended): `extract_base_name` removes every occurrence of `.mp3`, then
every occurrence of `.m4a`, anywhere in the name (case-sensitive), and of the
result `t` it returns the longest leading run of ASCII letters — a non-empty
all-letter prefix of `t` whose next character, if any, is not a letter — when
`t` starts with a letter, and otherwise `t` with its trailing run of digits
stripped: `t = b ++ d` with `d` all digits and `b` not ending in a digit.
It is a pure, total, deterministic function (it is a Lean `def`). -/
theorem extract_base_name_characterization (filename : List Char) :
    ((∃ c, (removeDotM4a (removeDotMp3 filename)).head? = some c
        ∧ isAsciiAlpha c = true) →
      (extract_base_name filename ≠ [] ∧
       (∀ c ∈ extract_base_name filename, isAsciiAlpha c = true) ∧
       extract_base_name filename <+: removeDotM4a (removeDotMp3 filename) ∧
       (∀ c, ((removeDotM4a (removeDotMp3 filename)).drop
           (extract_base_name filename).length).head? = some c →
         isAsciiAlpha c = false))) ∧
    ((∀ c, (removeDotM4a (removeDotMp3 filename)).head? = some c →
        isAsciiAlpha c = false) →
      ∃ d, removeDotM4a (removeDotMp3 filename) = extract_base_name filename ++ d ∧
        (∀ c ∈ d, isAsciiDigit c = true) ∧
        (∀ c, (extract_base_name filename).getLast? = some c →
          isAsciiDigit c = false)) := by
  constructor
  · rintro ⟨c, hc, hca⟩
    have hcond : (removeDotM4a (removeDotMp3 filename)).takeWhile isAsciiAlpha ≠ [] := by
      cases ht : removeDotM4a (removeDotMp3 filename) with
      | nil => rw [ht] at hc; simp at hc
      | cons a rest =>
        rw [ht] at hc
        simp only [List.head?_cons, Option.some_inj] at hc
        rw [List.takeWhile_cons_of_pos (by rw [hc]; exact hca)]
        simp
    have hb : extract_base_name filename
        = (removeDotM4a (removeDotMp3 filename)).takeWhile isAsciiAlpha := by
      simp only [extract_base_name]
      rw [if_pos hcond]
    refine ⟨by rw [hb]; exact hcond, ?_, ?_, ?_⟩
    · intro x hx
      rw [hb] at hx
      exact List.mem_takeWhile_imp hx
    · rw [hb]
      exact List.takeWhile_prefix isAsciiAlpha
    · intro x hx
      rw [hb] at hx
      have hsplit := List.takeWhile_append_dropWhile (p := isAsciiAlpha)
        (l := removeDotM4a (removeDotMp3 filename))
      nth_rewrite 2 [← hsplit] at hx
      rw [List.drop_left] at hx
      exact head_dropWhile_not isAsciiAlpha _ x hx
  · intro hB
    have hcond : (removeDotM4a (removeDotMp3 filename)).takeWhile isAsciiAlpha = [] := by
      cases ht : removeDotM4a (removeDotMp3 filename) with
      | nil => simp
      | cons a rest =>
        have ha := hB a (by rw [ht]; simp)
        rw [List.takeWhile_cons_of_neg (by simp [ha])]
    have hb : extract_base_name filename
        = stripTrailingDigits (removeDotM4a (removeDotMp3 filename)) := by
      simp only [extract_base_name]
      rw [if_neg (fun hne => hne hcond)]
    refine ⟨((removeDotM4a (removeDotMp3 filename)).reverse.takeWhile isAsciiDigit).reverse,
      ?_, ?_, ?_⟩
    · rw [hb]
      simp only [stripTrailingDigits]
      conv_lhs => rw [← List.reverse_reverse (removeDotM4a (removeDotMp3 filename)),
        ← List.takeWhile_append_dropWhile (p := isAsciiDigit)
          (l := (removeDotM4a (removeDotMp3 filename)).reverse)]
      rw [List.reverse_append]
    · intro x hx
      rw [List.mem_reverse] at hx
      exact List.mem_takeWhile_imp hx
    · intro x hx
      rw [hb] at hx
      simp only [stripTrailingDigits] at hx
      rw [List.getLast?_reverse] at hx
      exact head_dropWhile_not isAsciiDigit _ x hx

/-- Witness for `extract_base_name_characterization` on `Bava46.mp3`, whose
extension-removed form starts with the letter `B`. -/
theorem extract_base_name_characterization_witness :
    extract_base_name (("Bava46.mp3").data) ≠ [] ∧
    (∀ c ∈ extract_base_name (("Bava46.mp3").data), isAsciiAlpha c = true) ∧
    extract_base_name (("Bava46.mp3").data)
      <+: removeDotM4a (removeDotMp3 (("Bava46.mp3").data)) ∧
    (∀ c, ((removeDotM4a (removeDotMp3 (("Bava46.mp3").data))).drop
        (extract_base_name (("Bava46.mp3").data)).length).head? = some c →
      isAsciiAlpha c = false) :=
  (extract_base_name_characterization (("Bava46.mp3").data)).1
    ⟨'B', by decide, by decide⟩

/-- Counterexample to C8 as stated: `1.mp3a.mp3` has no leading alphabetic
run, so the claim predicts the suffix-stripped name `1.mp3a` with its (empty)
trailing digit run removed, i.e. `1.mp3a`; the code's replace-all extension
removal yields `1a` instead. -/
theorem base_name_fallback_counterexample :
    isAsciiAlpha ((("1.mp3a.mp3").data).headD ' ') = false ∧
    extract_base_name (("1.mp3a.mp3").data) = ("1a").data ∧
    stripTrailingDigits (removeKnownExtSuffix (("1.mp3a.mp3").data))
      = ("1.mp3a").data ∧
    ("1a").data ≠ ("1.mp3a").data := by
  refine ⟨by decide, by decide, by decide, by decide⟩

/-- C8 (amended): for a filename `<Letters><Digits><ext>` — a non-empty ASCII
letter run, a possibly-empty digit run, and a supported extension —it returns
exactly `<Letters>`; and for every filename whose extension-removed form (all
occurrences of `.mp3`, then `.m4a`, removed) has no leading alphabetic
character, it returns that form with its trailing digit run removed. -/
theorem base_name_shapes (letters digits ext other : List Char)
    (hL : letters ≠ []) (hLa : ∀ c ∈ letters, isAsciiAlpha c = true)
    (hD : ∀ c ∈ digits, isAsciiDigit c = true)
    (hext : ext = (".mp3").data ∨ ext = (".m4a").data) :
    extract_base_name (letters ++ digits ++ ext) = letters ∧
    ((∀ c, (removeDotM4a (removeDotMp3 other)).head? = some c →
        isAsciiAlpha c = false) →
      extract_base_name other
        = stripTrailingDigits (removeDotM4a (removeDotMp3 other))) := by
  constructor
  · have hnd : ∀ c ∈ letters ++ digits, c ≠ '.' := by
      intro c hc
      rcases List.mem_append.mp hc with h | h
      · exact isAsciiAlpha_ne_dot (hLa c h)
      · exact isAsciiDigit_ne_dot (hD c h)
    have ht : removeDotM4a (removeDotMp3 (letters ++ digits ++ ext))
        = letters ++ digits := by
      rcases hext with rfl | rfl
      · rw [removeDotMp3_append_no_dot (letters ++ digits) _ hnd,
          show removeDotMp3 ((".mp3").data) = [] from by decide, List.append_nil]
        simpa [show removeDotM4a [] = [] from rfl]
          using removeDotM4a_append_no_dot (letters ++ digits) [] hnd
      · rw [removeDotMp3_append_no_dot (letters ++ digits) _ hnd,
          show removeDotMp3 ((".m4a").data) = (".m4a").data from by decide,
          removeDotM4a_append_no_dot (letters ++ digits) _ hnd,
          show removeDotM4a ((".m4a").data) = [] from by decide, List.append_nil]
    have htake : (letters ++ digits).takeWhile isAsciiAlpha = letters := by
      rw [takeWhile_append_all isAsciiAlpha letters digits hLa]
      have : digits.takeWhile isAsciiAlpha = [] := by
        cases hd : digits with
        | nil => simp
        | cons d ds =>
          have := isAsciiDigit_not_alpha (hD d (by rw [hd]; simp))
          rw [List.takeWhile_cons_of_neg (by simp [this])]
      rw [this, List.append_nil]
    simp only [extract_base_name, ht, htake]
    rw [if_pos hL]
  · intro hB
    have hcond : (removeDotM4a (removeDotMp3 other)).takeWhile isAsciiAlpha = [] := by
      cases ht : removeDotM4a (removeDotMp3 other) with
      | nil => simp
      | cons a rest =>
        have ha := hB a (by rw [ht]; simp)
        rw [List.takeWhile_cons_of_neg (by simp [ha])]
    simp only [extract_base_name]
    rw [if_neg (fun hne => hne hcond)]

/-- Witness for `base_name_shapes`: `Bava46.mp3` yields `Bava`, and the
letterless `123.mp3` falls back to digit stripping. -/
theorem base_name_shapes_witness :
    extract_base_name ((("Bava").data) ++ (("46").data) ++ ((".mp3").data))
      = ("Bava").data ∧
    extract_base_name (("123.mp3").data)
      = stripTrailingDigits (removeDotM4a (removeDotMp3 (("123.mp3").data))) := by
  have h := base_name_shapes (("Bava").data) (("46").data) ((".mp3").data)
    (("123.mp3").data) (by decide) (by decide) (by decide) (Or.inl rfl)
  refine ⟨h.1, h.2 ?_⟩
  intro c hc
  have h1 : (removeDotM4a (removeDotMp3 (("123.mp3").data))).head? = some '1' := by
    decide
  rw [h1] at hc
  rw [← Option.some_inj.mp hc]
  decide

/-- Replacing every `.m4a` by `.mp3` in a string ending in `.m4a` yields a
string ending in `.mp3` (the pattern cannot self-overlap, so the trailing
occurrence is always rewritten). -/
theorem replaceM4a_append_m4a : ∀ (w : List Char),
    (".mp3").data <:+ replaceM4aWithMp3 (w ++ (".m4a").data)
  | [] => by decide
  | [c] => by
    have h1 : replaceM4aWithMp3 ([c] ++ (".m4a").data)
        = c :: ('.' :: 'm' :: 'p' :: '3' :: []) := by
      show replaceM4aWithMp3 (c :: '.' :: 'm' :: '4' :: 'a' :: []) = _
      simp [replaceM4aWithMp3]
    rw [h1]
    exact ⟨[c], rfl⟩
  | [c, d] => by
    have h1 : replaceM4aWithMp3 ([c, d] ++ (".m4a").data)
        = c :: d :: ('.' :: 'm' :: 'p' :: '3' :: []) := by
      show replaceM4aWithMp3 (c :: d :: '.' :: 'm' :: '4' :: 'a' :: []) = _
      simp [replaceM4aWithMp3]
    rw [h1]
    exact ⟨[c, d], rfl⟩
  | [c, d, e] => by
    have h1 : replaceM4aWithMp3 ([c, d, e] ++ (".m4a").data)
        = c :: d :: e :: ('.' :: 'm' :: 'p' :: '3' :: []) := by
      show replaceM4aWithMp3 (c :: d :: e :: '.' :: 'm' :: '4' :: 'a' :: []) = _
      simp [replaceM4aWithMp3]
    rw [h1]
    exact ⟨[c, d, e], rfl⟩
  | c :: d :: e :: f :: w4 => by
    by_cases hc : c = '.' ∧ d = 'm' ∧ e = '4' ∧ f = 'a'
    · have h1 : replaceM4aWithMp3 ((c :: d :: e :: f :: w4) ++ (".m4a").data)
          = '.' :: 'm' :: 'p' :: '3' :: replaceM4aWithMp3 (w4 ++ (".m4a").data) := by
        show replaceM4aWithMp3 (c :: d :: e :: f :: (w4 ++ (".m4a").data)) = _
        rw [replaceM4aWithMp3, if_pos hc]
      rw [h1]
      obtain ⟨u, hu⟩ := replaceM4a_append_m4a w4
      exact ⟨'.' :: 'm' :: 'p' :: '3' :: u, by simp [hu]⟩
    · have h1 : replaceM4aWithMp3 ((c :: d :: e :: f :: w4) ++ (".m4a").data)
          = c :: replaceM4aWithMp3 ((d :: e :: f :: w4) ++ (".m4a").data) := by
        show replaceM4aWithMp3 (c :: d :: e :: f :: (w4 ++ (".m4a").data)) = _
        rw [replaceM4aWithMp3, if_neg hc]
        rfl
      rw [h1]
      obtain ⟨u, hu⟩ := replaceM4a_append_m4a (d :: e :: f :: w4)
      exact ⟨c :: u, by simp [hu]⟩
  termination_by w => w.length
  decreasing_by
  · simp
    omega
  · simp

/-- Replacing every `.m4a` by `.mp3` preserves a trailing `.mp3`. -/
theorem replaceM4a_append_mp3 : ∀ (w : List Char),
    (".mp3").data <:+ replaceM4aWithMp3 (w ++ (".mp3").data)
  | [] => by decide
  | [c] => by
    have h1 : replaceM4aWithMp3 ([c] ++ (".mp3").data)
        = c :: ('.' :: 'm' :: 'p' :: '3' :: []) := by
      show replaceM4aWithMp3 (c :: '.' :: 'm' :: 'p' :: '3' :: []) = _
      simp [replaceM4aWithMp3]
    rw [h1]
    exact ⟨[c], rfl⟩
  | [c, d] => by
    have h1 : replaceM4aWithMp3 ([c, d] ++ (".mp3").data)
        = c :: d :: ('.' :: 'm' :: 'p' :: '3' :: []) := by
      show replaceM4aWithMp3 (c :: d :: '.' :: 'm' :: 'p' :: '3' :: []) = _
      simp [replaceM4aWithMp3]
    rw [h1]
    exact ⟨[c, d], rfl⟩
  | [c, d, e] => by
    have h1 : replaceM4aWithMp3 ([c, d, e] ++ (".mp3").data)
        = c :: d :: e :: ('.' :: 'm' :: 'p' :: '3' :: []) := by
      show replaceM4aWithMp3 (c :: d :: e :: '.' :: 'm' :: 'p' :: '3' :: []) = _
      simp [replaceM4aWithMp3]
    rw [h1]
    exact ⟨[c, d, e], rfl⟩
  | c :: d :: e :: f :: w4 => by
    by_cases hc : c = '.' ∧ d = 'm' ∧ e = '4' ∧ f = 'a'
    · have h1 : replaceM4aWithMp3 ((c :: d :: e :: f :: w4) ++ (".mp3").data)
          = '.' :: 'm' :: 'p' :: '3' :: replaceM4aWithMp3 (w4 ++ (".mp3").data) := by
        show replaceM4aWithMp3 (c :: d :: e :: f :: (w4 ++ (".mp3").data)) = _
        rw [replaceM4aWithMp3, if_pos hc]
      rw [h1]
      obtain ⟨u, hu⟩ := replaceM4a_append_mp3 w4
      exact ⟨'.' :: 'm' :: 'p' :: '3' :: u, by simp [hu]⟩
    · have h1 : replaceM4aWithMp3 ((c :: d :: e :: f :: w4) ++ (".mp3").data)
          = c :: replaceM4aWithMp3 ((d :: e :: f :: w4) ++ (".mp3").data) := by
        show replaceM4aWithMp3 (c :: d :: e :: f :: (w4 ++ (".mp3").data)) = _
        rw [replaceM4aWithMp3, if_neg hc]
        rfl
      rw [h1]
      obtain ⟨u, hu⟩ := replaceM4a_append_mp3 (d :: e :: f :: w4)
      exact ⟨c :: u, by simp [hu]⟩
  termination_by w => w.length
  decreasing_by
  · simp
    omega
  · simp

/-- The second component of a join is a suffix of the joined path. -/
theorem osPathJoin_suffix (a b : List Char) : b <:+ osPathJoin a b := by
  unfold osPathJoin
  split_ifs with h1 h2
  · exact List.suffix_refl b
  · exact List.suffix_append a b
  · exact (List.suffix_cons '/' b).trans (List.suffix_append a ('/' :: b))

/-- Counterexample to C9 as stated: the discovered `.mp3` file `a.m4a.mp3`
should, per the claim, keep its filename unchanged (its extension is already
`.mp3`), but the code replaces every interior `.m4a` occurrence too, producing
`a.mp3.mp3`. -/
theorem output_path_not_extension_remap_counterexample :
    (file_tasks (("/d").data) [("a.m4a.mp3").data]).map FileTask.output_file
      = [("/d/a/a.mp3.mp3").data] ∧
    output_path_claimed (("/d").data) (("a.m4a.mp3").data)
      = ("/d/a/a.m4a.mp3").data ∧
    ([("/d/a/a.mp3.mp3").data] : List (List Char)) ≠ [("/d/a/a.m4a.mp3").data] := by
  refine ⟨by decide, by decide, by decide⟩

/-- C9 (amended): every task's output path is the source directory joined with
the base name of its filename joined with the filename in which every
occurrence of `.m4a` has been replaced by `.mp3`; in particular an `.m4a`
input's output path ends in `.mp3` inside the directory named by its base
name, and an `.mp3` input's output path still ends in `.mp3`. -/
theorem task_output_path (source_directory : List Char)
    (listing : List (List Char)) (t : FileTask)
    (ht : t ∈ file_tasks source_directory listing) :
    t.output_file = osPathJoin
        (osPathJoin source_directory (extract_base_name t.filename))
        (replaceM4aWithMp3 t.filename) ∧
    ((".m4a").data <:+ t.filename → (".mp3").data <:+ t.output_file) ∧
    ((".mp3").data <:+ t.filename → (".mp3").data <:+ t.output_file) := by
  simp only [file_tasks, List.mem_map] at ht
  obtain ⟨p, hp, hteq⟩ := ht
  have hout : t.output_file = osPathJoin
      (osPathJoin source_directory (extract_base_name t.filename))
      (replaceM4aWithMp3 t.filename) := by
    rw [← hteq]
  refine ⟨hout, ?_, ?_⟩
  · intro hsuf
    obtain ⟨w, hw⟩ := hsuf
    rw [hout, ← hw]
    exact (replaceM4a_append_m4a w).trans (osPathJoin_suffix _ _)
  · intro hsuf
    obtain ⟨w, hw⟩ := hsuf
    rw [hout, ← hw]
    exact (replaceM4a_append_mp3 w).trans (osPathJoin_suffix _ _)

/-- Witness for `task_output_path`: the single discovered `.m4a` file
`x5.m4a` under `/m` gets the output path `/m/x/x5.mp3`, which ends in
`.mp3`. -/
theorem task_output_path_witness : (".mp3").data <:+ ("/m/x/x5.mp3").data := by
  have h := task_output_path (("/m").data) [("x5.m4a").data]
    ⟨("/m/x5.m4a").data, ("/m/x/x5.mp3").data, ("x5.m4a").data, 1, 1⟩ (by decide)
  exact h.2.1 (by decide)

/-- The pattern `'*' ++ lit` matches exactly the strings with suffix `lit`. -/
theorem fnmatchStar_iff (lit : List Char) : ∀ s : List Char,
    fnmatchStar lit s = true ↔ lit <:+ s := by
  intro s
  induction s with
  | nil => simp [fnmatchStar, List.suffix_nil]
  | cons c rest ih => simp [fnmatchStar, List.suffix_cons_iff, ih]

/-- Glob matching of `'*' ++ lit` characterised: a name matches iff it does
not start with a dot and ends with `lit`. -/
theorem globStar_eq (lit name : List Char) :
    globStar lit name
      = (decide (¬ name.head? = some '.') && decide (lit <:+ name)) := by
  unfold globStar
  by_cases h : name.head? = some '.'
  · simp [h]
  · cases hb : fnmatchStar lit name with
    | false =>
      have hn : ¬ lit <:+ name := fun hs => by
        have := (fnmatchStar_iff lit name).mpr hs
        rw [hb] at this
        exact Bool.false_ne_true this
      simp [h, hn, hb]
    | true =>
      have hs : lit <:+ name := (fnmatchStar_iff lit name).mp hb
      simp [h, hs, hb]

/-- Counterexample to C10 as stated: a file named `.b.mp3` ends in the
lowercase suffix `.mp3`, but glob treats names starting with a dot as hidden
and does not match them, so discovery returns nothing for it. -/
theorem discovery_excludes_hidden_counterexample :
    get_mp3_files (("/d").data) [(".b.mp3").data] = [] ∧
    discovery_claimed (("/d").data) [(".b.mp3").data] = [("/d/.b.mp3").data] ∧
    ([] : List (List Char)) ≠ [("/d/.b.mp3").data] := by
  refine ⟨by decide, by decide, by decide⟩

/-- C10 (amended): discovery returns exactly the directory entries that do not
begin with a dot and end in `.mp3` or `.m4a` (non-recursive, case-sensitive),
each joined onto the source directory, with every `.mp3` match listed before
every `.m4a` match; and the tasks' ordinal indices are 1..N in that order. -/
theorem discovery_characterization (directory : List Char)
    (listing : List (List Char)) :
    get_mp3_files directory listing
      = ((listing.filter (fun n => decide (¬ n.head? = some '.')
            && decide ((".mp3").data <:+ n))).map (osPathJoin directory))
        ++ ((listing.filter (fun n => decide (¬ n.head? = some '.')
            && decide ((".m4a").data <:+ n))).map (osPathJoin directory)) ∧
    (∀ i (hi : i < (file_tasks directory listing).length),
      ((file_tasks directory listing).get ⟨i, hi⟩).file_index = i + 1) := by
  constructor
  · have h1 : globStar ((".mp3").data)
        = fun n => decide (¬ n.head? = some '.') && decide ((".mp3").data <:+ n) :=
      funext (fun n => globStar_eq _ n)
    have h2 : globStar ((".m4a").data)
        = fun n => decide (¬ n.head? = some '.') && decide ((".m4a").data <:+ n) :=
      funext (fun n => globStar_eq _ n)
    simp only [get_mp3_files, h1, h2]
  · intro i hi
    simp only [file_tasks, List.get_eq_getElem, List.getElem_map, List.getElem_enum]

/-- Witness for `discovery_characterization` at a two-entry directory. -/
theorem discovery_characterization_witness :
    get_mp3_files (("/w").data) [("a.mp3").data, ("b.m4a").data]
      = (([("a.mp3").data, ("b.m4a").data].filter
            (fun n => decide (¬ n.head? = some '.')
              && decide ((".mp3").data <:+ n))).map (osPathJoin (("/w").data)))
        ++ (([("a.mp3").data, ("b.m4a").data].filter
            (fun n => decide (¬ n.head? = some '.')
              && decide ((".m4a").data <:+ n))).map (osPathJoin (("/w").data))) ∧
    ((file_tasks (("/w").data) [("a.mp3").data, ("b.m4a").data]).get
        ⟨0, by decide⟩).file_index = 1 := by
  have h := discovery_characterization (("/w").data) [("a.mp3").data, ("b.m4a").data]
  exact ⟨h.1, h.2 0 (by decide)⟩
